import Mathlib

/-!
Shallow embedding of `src/backend/app/core/database.py`: the pooled,
transactional database access layer (connection factory, validator, bounded
pool, and the `get_db_cursor` unit-of-work context manager).

Physical connections are identified by natural-number serials handed out by a
counter (`PoolState.nextId`), mirroring the fact that `pyodbc.connect` returns
a fresh distinct object on every successful call.  All fallible external
operations (connect, `SELECT 1` validation probe, commit, rollback, close,
cursor creation, result-set draining, and the caller-supplied body) are
resolved by an outcome oracle `Behavior`, so a single Lean function captures
every possible execution of the Python code.  Each operation also appends to an
event trace recording which calls were *invoked*, in order, so that claims
about "commit is invoked", "rollback is attempted", ordering, and exactly-once
release can be stated over the trace.
-/

namespace DBPool

/-- Pool capacity: `POOL_SIZE = 5` in `database.py`. -/
def POOL_SIZE : Nat := 5

/-- Checkout wait budget in seconds: `POOL_TIMEOUT = 30` in `database.py`. -/
def POOL_TIMEOUT : Nat := 30

/-- Outcome oracle for the fallible external operations of the layer.
`createOk n` decides whether the creation attempt that would produce
connection serial `n` succeeds; `execOk c` whether the `SELECT 1` liveness
probe on connection `c` succeeds; `commitOk`, `rollbackOk`, `closeOk`,
`cursorOk`, `drainOk` likewise for `conn.commit()`, `conn.rollback()`,
`conn.close()`, `conn.cursor()` and the `nextset`-drain loop; `bodyResult c`
is `none` when the caller's body returns normally on the cursor of `c`, and
`some k` when it raises the exception with identity `k`. -/
structure Behavior where
  createOk : Nat → Bool
  execOk : Nat → Bool
  commitOk : Nat → Bool
  rollbackOk : Nat → Bool
  closeOk : Nat → Bool
  cursorOk : Nat → Bool
  drainOk : Nat → Bool
  bodyResult : Nat → Option Nat

/-- Trace events: one entry per *invocation* of an external operation,
in chronological order.  `ret c` marks an invocation of
`_return_connection` with argument `c` (`none` for `None`). -/
inductive Event where
  | create (n : Nat)
  | createFail (n : Nat)
  | exec (n : Nat)
  | commit (n : Nat)
  | rollback (n : Nat)
  | close (n : Nat)
  | put (n : Nat)
  | cursorOpen (n : Nat)
  | cursorClose (n : Nat)
  | drain (n : Nat)
  | body (n : Nat)
  | ret (c : Option Nat)
  deriving DecidableEq, Repr

/-- Exceptions of the embedded code, with enough identity to state that the
original exception is re-raised unchanged. -/
inductive Err where
  | connectFail (n : Nat)
  | commitFail (n : Nat)
  | rollbackFail (n : Nat)
  | closeFail (n : Nat)
  | cursorFail (n : Nat)
  | bodyErr (k : Nat)
  | emptyPool
  | fullPool
  | poolIsNone
  deriving DecidableEq, Repr

/-- Module-level state: `_pool` (a `Queue`, `none` before lazy initialization;
the list is FIFO, front = next element `get` returns) and the serial counter
for fresh physical connections. -/
structure PoolState where
  pool : Option (List Nat)
  nextId : Nat
  deriving DecidableEq, Repr

/-- Idle set of a state (`[]` when the pool was never initialized). -/
def poolL (s : PoolState) : List Nat := s.pool.getD []

/-- `_create_connection`: `pyodbc.connect(...)` either yields a fresh
connection (the current serial) or raises; the serial counter advances on
every attempt. -/
def _create_connection (b : Behavior) (s : PoolState) :
    Except Err Nat × PoolState × List Event :=
  if b.createOk s.nextId then
    (.ok s.nextId, { s with nextId := s.nextId + 1 }, [.create s.nextId])
  else
    (.error (.connectFail s.nextId), { s with nextId := s.nextId + 1 },
      [.createFail s.nextId])

/-- Population loop of `_init_pool`: `for _ in range(POOL_SIZE)` attempt a
creation; on success `put` the connection into the queue; on exception log
and continue (the error is swallowed). -/
def initLoop (b : Behavior) : Nat → PoolState → PoolState × List Event
  | 0, s => (s, [])
  | n + 1, s =>
    match _create_connection b s with
    | (.ok c, s₁, ev) =>
      let s₂ := { s₁ with pool := s₁.pool.map (fun q => q ++ [c]) }
      let (s₃, evs) := initLoop b n s₂
      (s₃, ev ++ [.put c] ++ evs)
    | (.error _, s₁, ev) =>
      let (s₂, evs) := initLoop b n s₁
      (s₂, ev ++ evs)

/-- `_init_pool`: under the lock, if `_pool is None` install a fresh bounded
queue and populate it with up to `POOL_SIZE` connections, swallowing creation
failures; otherwise do nothing. -/
def _init_pool (b : Behavior) (s : PoolState) : PoolState × List Event :=
  match s.pool with
  | some _ => (s, [])
  | none => initLoop b POOL_SIZE { s with pool := some [] }

/-- Core of `_get_pooled_connection` after lazy initialization: try
`_pool.get(timeout=POOL_TIMEOUT)`; on success validate with `SELECT 1`,
returning the connection if alive, otherwise close it (errors swallowed) and
create a fresh one; on `Empty` (the wait timed out) create a fresh connection
outside the pool. -/
def getCore (b : Behavior) (s : PoolState) :
    Except Err Nat × PoolState × List Event :=
  match s.pool with
  | none => (.error .poolIsNone, s, [])
  | some [] =>
    let (r, s₁, ev) := _create_connection b s
    (r, s₁, ev)
  | some (c :: rest) =>
    let s₁ := { s with pool := some rest }
    if b.execOk c then
      (.ok c, s₁, [.exec c])
    else
      let (r, s₂, ev) := _create_connection b s₁
      (r, s₂, [.exec c, .close c] ++ ev)

/-- `_get_pooled_connection`: lazy init, then `getCore`. -/
def _get_pooled_connection (b : Behavior) (s : PoolState) :
    Except Err Nat × PoolState × List Event :=
  let (s₁, ev₁) := _init_pool b s
  let (r, s₂, ev₂) := getCore b s₁
  (r, s₂, ev₁ ++ ev₂)

/-- `_pool.put_nowait(conn)`: raises `AttributeError` when `_pool is None`
and `queue.Full` when the queue is at capacity; otherwise appends. -/
def put_nowait (s : PoolState) (c : Nat) : Except Err PoolState :=
  match s.pool with
  | none => .error .poolIsNone
  | some q =>
    if q.length < POOL_SIZE then .ok { s with pool := some (q ++ [c]) }
    else .error .fullPool

/-- `conn.close()`: invoked, may raise. -/
def close_conn (b : Behavior) (c : Nat) : Except Err Unit × List Event :=
  if b.closeOk c then (.ok (), [.close c])
  else (.error (.closeFail c), [.close c])

/-- `_return_connection(conn)`: no-op on `None`; otherwise validate with
`SELECT 1`; if alive, `put_nowait` back into the pool, closing the connection
instead when that raises (and if that close raises too, the outer handler
closes again and swallows); if the probe raised, close and swallow.  The
`Except` result mirrors the Python control flow: every raising path is caught
by one of the handlers, so the result is always `.ok ()`. -/
def _return_connection (b : Behavior) (s : PoolState) (conn : Option Nat) :
    Except Err Unit × PoolState × List Event :=
  match conn with
  | none => (.ok (), s, [.ret none])
  | some c =>
    if b.execOk c then
      match put_nowait s c with
      | .ok s₁ => (.ok (), s₁, [.ret (some c), .exec c, .put c])
      | .error _ =>
        match close_conn b c with
        | (.ok _, ev) => (.ok (), s, [.ret (some c), .exec c] ++ ev)
        | (.error _, ev) =>
          let (_, ev₂) := close_conn b c
          (.ok (), s, [.ret (some c), .exec c] ++ ev ++ ev₂)
    else
      let (_, ev) := close_conn b c
      (.ok (), s, [.ret (some c), .exec c] ++ ev)

/-- Cleanup of the cursor in the `finally` block: drain remaining result sets
(`while cursor.nextset(): pass`) then `cursor.close()`, with any exception
swallowed (so a failing drain skips the close). -/
def cursorCleanup (b : Behavior) (c : Nat) : List Event :=
  if b.drainOk c then [.drain c, .cursorClose c] else [.drain c]

/-- `conn.commit()`: invoked, may raise. -/
def commit_conn (b : Behavior) (c : Nat) : Except Err Unit × List Event :=
  if b.commitOk c then (.ok (), [.commit c])
  else (.error (.commitFail c), [.commit c])

/-- `conn.rollback()`: invoked, may raise. -/
def rollback_conn (b : Behavior) (c : Nat) : Except Err Unit × List Event :=
  if b.rollbackOk c then (.ok (), [.rollback c])
  else (.error (.rollbackFail c), [.rollback c])

/-- `get_db_cursor()`: the unit-of-work context manager.  Acquire a pooled
connection; open a cursor; run the body; commit on normal return.  On any
exception with a connection in hand, attempt rollback (its own failure is
swallowed) and re-raise the original exception.  Finally, clean up the cursor
(best effort) and release the connection via `_return_connection`. -/
def get_db_cursor (b : Behavior) (s : PoolState) :
    Except Err Unit × PoolState × List Event :=
  match _get_pooled_connection b s with
  | (.error e, s₁, ev₁) =>
    -- `conn` is still `None`: no rollback; finally releases `None`.
    let (_, s₂, ev₂) := _return_connection b s₁ none
    (.error e, s₂, ev₁ ++ ev₂)
  | (.ok c, s₁, ev₁) =>
    if b.cursorOk c then
      match b.bodyResult c with
      | none =>
        match commit_conn b c with
        | (.ok _, evCommit) =>
          let evClean := cursorCleanup b c
          let (_, s₂, ev₂) := _return_connection b s₁ (some c)
          (.ok (), s₂,
            ev₁ ++ [.cursorOpen c, .body c] ++ evCommit ++ evClean ++ ev₂)
        | (.error e, evCommit) =>
          let (_, evRb) := rollback_conn b c
          let evClean := cursorCleanup b c
          let (_, s₂, ev₂) := _return_connection b s₁ (some c)
          (.error e, s₂,
            ev₁ ++ [.cursorOpen c, .body c] ++ evCommit ++ evRb ++ evClean
              ++ ev₂)
      | some k =>
        let (_, evRb) := rollback_conn b c
        let evClean := cursorCleanup b c
        let (_, s₂, ev₂) := _return_connection b s₁ (some c)
        (.error (.bodyErr k), s₂,
          ev₁ ++ [.cursorOpen c, .body c] ++ evRb ++ evClean ++ ev₂)
    else
      -- `conn.cursor()` raised: `conn` is set, so rollback is attempted;
      -- `cursor` is still `None`, so the finally block skips cursor cleanup.
      let (_, evRb) := rollback_conn b c
      let (_, s₂, ev₂) := _return_connection b s₁ (some c)
      (.error (.cursorFail c), s₂, ev₁ ++ evRb ++ ev₂)

/-- Connection acquired by a `get_db_cursor` execution, if any. -/
def acquiredConn (b : Behavior) (s : PoolState) : Option Nat :=
  match (_get_pooled_connection b s).1 with
  | .ok c => some c
  | .error _ => none

/-- Events that the pool-management functions (`_create_connection`,
`_init_pool`, `_get_pooled_connection`, `_return_connection`) may emit:
creations, liveness probes, closes and queue puts — never transaction or
cursor events. -/
def poolEv : Event → Prop
  | .create _ => True
  | .createFail _ => True
  | .exec _ => True
  | .close _ => True
  | .put _ => True
  | _ => False

/-- Bounded idle set: the installed queue never holds more than `POOL_SIZE`
connections (`0` when the pool was never initialized). -/
def poolBounded (s : PoolState) : Prop := (poolL s).length ≤ POOL_SIZE

instance (s : PoolState) : Decidable (poolBounded s) := by
  unfold poolBounded; infer_instance

/-- State of the whole system under concurrent callers: the module state plus
the multiset of connections currently held by in-flight Units of Work (one
list entry per Unit of Work). -/
structure SysState where
  ps : PoolState
  held : List Nat
  deriving DecidableEq, Repr

/-- One caller's atomic acquisition step: run `_get_pooled_connection`
(whose shared-state mutation is the thread-safe `Queue.get`) and, on
success, record the connection as held by that Unit of Work. -/
def stepAcquire (b : Behavior) (σ : SysState) : SysState :=
  match _get_pooled_connection b σ.ps with
  | (.ok c, ps₁, _) => ⟨ps₁, c :: σ.held⟩
  | (.error _, ps₁, _) => ⟨ps₁, σ.held⟩

/-- One caller's release step: a Unit of Work holding `c` runs
`_return_connection` and stops holding it. -/
def stepRelease (b : Behavior) (c : Nat) (σ : SysState) : SysState :=
  if c ∈ σ.held then
    ⟨(_return_connection b σ.ps (some c)).2.1, σ.held.erase c⟩
  else σ

/-- Ownership invariant: every connection (idle or held) is a serial already
handed out, and no connection appears twice across the idle set and the held
multiset — i.e. each connection is owned by the pool or by exactly one Unit
of Work. -/
def sysInv (σ : SysState) : Prop :=
  (∀ x ∈ poolL σ.ps ++ σ.held, x < σ.ps.nextId) ∧
  (poolL σ.ps ++ σ.held).Nodup

instance (σ : SysState) : Decidable (sysInv σ) := by
  unfold sysInv; infer_instance

/-- Behavior in which every external operation succeeds and the body returns
normally. -/
def bAllOk : Behavior :=
  ⟨fun _ => true, fun _ => true, fun _ => true, fun _ => true, fun _ => true,
    fun _ => true, fun _ => true, fun _ => none⟩

/-- Behavior in which everything succeeds except `conn.commit()`. -/
def bBadCommit : Behavior := { bAllOk with commitOk := fun _ => false }

/-- Behavior in which every connection fails the `SELECT 1` liveness probe. -/
def bDead : Behavior := { bAllOk with execOk := fun _ => false }

/-- Behavior in which the body raises the exception with identity `42`. -/
def bBodyRaises : Behavior := { bAllOk with bodyResult := fun _ => some 42 }

/-- Behavior in which only the very first connection creation (serial `0`)
fails; everything else succeeds. -/
def bFirstCreateFails : Behavior :=
  { bAllOk with createOk := fun n => !(n == 0) }

/-! Structural lemmas about the pool operations. -/

/-- Specification of the population loop: starting from an installed queue
`q`, it appends some `new` connections (at most `n` of them, all fresh, all
distinct) and only advances the serial counter. -/
lemma initLoop_spec (b : Behavior) :
    ∀ (n : Nat) (s : PoolState) (q : List Nat), s.pool = some q →
      ∃ new : List Nat,
        (initLoop b n s).1.pool = some (q ++ new) ∧
        s.nextId ≤ (initLoop b n s).1.nextId ∧
        new.length ≤ n ∧
        (∀ x ∈ new, s.nextId ≤ x ∧ x < (initLoop b n s).1.nextId) ∧
        new.Nodup := by
  intro n
  induction n with
  | zero =>
    intro s q hq
    exact ⟨[], by simpa [initLoop] using hq, le_refl _, by simp, by simp,
      List.nodup_nil⟩
  | succ n ih =>
    intro s q hq
    by_cases hc : b.createOk s.nextId
    · have hpool₂ :
        ({ pool := (({ s with nextId := s.nextId + 1 } : PoolState)).pool.map
            (fun q => q ++ [s.nextId]),
           nextId := s.nextId + 1 } : PoolState).pool
          = some (q ++ [s.nextId]) := by
        simp [hq]
      obtain ⟨new', h₁, h₂, h₃, h₄, h₅⟩ :=
        ih { pool := (({ s with nextId := s.nextId + 1 } : PoolState)).pool.map
              (fun q => q ++ [s.nextId]),
             nextId := s.nextId + 1 } (q ++ [s.nextId]) hpool₂
      refine ⟨s.nextId :: new', ?_, ?_, ?_, ?_, ?_⟩
      · simpa [initLoop, _create_connection, hc] using h₁
      · have : s.nextId ≤ s.nextId + 1 := Nat.le_succ _
        simpa [initLoop, _create_connection, hc] using this.trans h₂
      · simpa [initLoop, _create_connection, hc] using Nat.succ_le_succ h₃
      · intro x hx
        rcases List.mem_cons.mp hx with hx | hx
        · subst hx
          constructor
          · exact le_refl _
          · have : s.nextId < s.nextId + 1 := Nat.lt_succ_self _
            simpa [initLoop, _create_connection, hc] using this.trans_le h₂
        · have := h₄ x hx
          constructor
          · exact (Nat.le_succ _).trans this.1
          · simpa [initLoop, _create_connection, hc] using this.2
      · refine List.nodup_cons.mpr ⟨?_, h₅⟩
        intro hmem
        have h₆ := (h₄ _ hmem).1
        simp only [PoolState.mk.injEq] at h₆
        omega
    · obtain ⟨new', h₁, h₂, h₃, h₄, h₅⟩ :=
        ih { s with nextId := s.nextId + 1 } q (by simpa using hq)
      refine ⟨new', ?_, ?_, ?_, ?_, h₅⟩
      · simpa [initLoop, _create_connection, hc] using h₁
      · have : s.nextId ≤ s.nextId + 1 := Nat.le_succ _
        simpa [initLoop, _create_connection, hc] using this.trans h₂
      · simpa [initLoop, _create_connection, hc] using h₃.trans (Nat.le_succ _)
      · intro x hx
        have := h₄ x hx
        refine ⟨(Nat.le_succ _).trans this.1, ?_⟩
        simpa [initLoop, _create_connection, hc] using this.2

/-- Initialization is idempotent: once `_pool` is installed, `_init_pool`
leaves the state unchanged and performs no operation. -/
lemma init_pool_noop (b : Behavior) (s : PoolState) (q : List Nat)
    (h : s.pool = some q) : _init_pool b s = (s, []) := by
  simp [_init_pool, h]

/-- From an uninitialized state, `_init_pool` always installs a queue, holding
at most `POOL_SIZE` fresh pairwise-distinct connections; creation failures are
swallowed (the function is total and returns no error). -/
lemma init_pool_spec (b : Behavior) (s : PoolState) (h : s.pool = none) :
    ∃ new : List Nat,
      (_init_pool b s).1.pool = some new ∧
      s.nextId ≤ (_init_pool b s).1.nextId ∧
      new.length ≤ POOL_SIZE ∧
      (∀ x ∈ new, s.nextId ≤ x ∧ x < (_init_pool b s).1.nextId) ∧
      new.Nodup := by
  obtain ⟨new, h₁, h₂, h₃, h₄, h₅⟩ :=
    initLoop_spec b POOL_SIZE { s with pool := some [] } [] rfl
  refine ⟨new, ?_, ?_, h₃, ?_, h₅⟩
  · simpa [_init_pool, h] using h₁
  · simpa [_init_pool, h] using h₂
  · intro x hx
    have := h₄ x hx
    constructor
    · simpa using this.1
    · simpa [_init_pool, h] using this.2

lemma poolEv_ne (e : Event) (h : poolEv e) :
    (∀ m, e ≠ .commit m) ∧ (∀ m, e ≠ .rollback m) ∧
    (∀ m, e ≠ .cursorOpen m) ∧ (∀ m, e ≠ .cursorClose m) ∧
    (∀ m, e ≠ .drain m) ∧ (∀ m, e ≠ .body m) ∧ (∀ co, e ≠ .ret co) := by
  cases e <;> simp [poolEv] at h ⊢

lemma create_events (b : Behavior) (s : PoolState) :
    ∀ e ∈ (_create_connection b s).2.2, poolEv e := by
  intro e he
  by_cases hc : b.createOk s.nextId <;>
    simp [_create_connection, hc] at he <;> simp [he, poolEv]

lemma initLoop_events (b : Behavior) :
    ∀ (n : Nat) (s : PoolState), ∀ e ∈ (initLoop b n s).2, poolEv e := by
  intro n
  induction n with
  | zero => intro s e he; simp [initLoop] at he
  | succ n ih =>
    intro s e he
    by_cases hc : b.createOk s.nextId <;>
      simp [initLoop, _create_connection, hc] at he
    · rcases he with he | he | he
      · simp [he, poolEv]
      · simp [he, poolEv]
      · exact ih _ e he
    · rcases he with he | he
      · simp [he, poolEv]
      · exact ih _ e he

lemma init_pool_events (b : Behavior) (s : PoolState) :
    ∀ e ∈ (_init_pool b s).2, poolEv e := by
  intro e he
  cases h : s.pool with
  | some q => simp [_init_pool, h] at he
  | none =>
    simp only [_init_pool, h] at he
    exact initLoop_events b _ _ e he

lemma getCore_events (b : Behavior) (s : PoolState) :
    ∀ e ∈ (getCore b s).2.2, poolEv e := by
  intro e he
  cases h : s.pool with
  | none => simp [getCore, h] at he
  | some q =>
    cases q with
    | nil =>
      simp only [getCore, h] at he
      exact create_events b _ e he
    | cons c rest =>
      by_cases hx : b.execOk c
      · simp [getCore, h, hx] at he
        simp [he, poolEv]
      · simp only [getCore, h, hx, Bool.false_eq_true, if_false,
          List.mem_append, List.mem_cons] at he
        rcases he with (he | he | he) | he
        · simp [he, poolEv]
        · simp [he, poolEv]
        · simp at he
        · exact create_events b _ e he

lemma gpc_events (b : Behavior) (s : PoolState) :
    ∀ e ∈ (_get_pooled_connection b s).2.2, poolEv e := by
  intro e he
  simp only [_get_pooled_connection, List.mem_append] at he
  rcases he with he | he
  · exact init_pool_events b s e he
  · exact getCore_events b _ e he

lemma ret_events (b : Behavior) (s : PoolState) (conn : Option Nat) :
    ∀ e ∈ (_return_connection b s conn).2.2, poolEv e ∨ e = .ret conn := by
  intro e he
  cases conn with
  | none => simp [_return_connection] at he; simp [he]
  | some c =>
    by_cases hx : b.execOk c
    · rcases hp : put_nowait s c with err | s₁
      · by_cases hcl : b.closeOk c
        · simp [_return_connection, hx, hp, close_conn, hcl] at he
          rcases he with he | he | he <;> simp [he, poolEv]
        · simp [_return_connection, hx, hp, close_conn, hcl] at he
          rcases he with he | he | he <;> simp [he, poolEv]
      · simp [_return_connection, hx, hp] at he
        rcases he with he | he | he <;> simp [he, poolEv]
    · by_cases hcl : b.closeOk c
      · simp [_return_connection, hx, close_conn, hcl] at he
        rcases he with he | he | he <;> simp [he, poolEv]
      · simp [_return_connection, hx, close_conn, hcl] at he
        rcases he with he | he | he <;> simp [he, poolEv]

lemma not_mem_of_poolEv {t : List Event} (h : ∀ e ∈ t, poolEv e) :
    (∀ m, Event.commit m ∉ t) ∧ (∀ m, Event.rollback m ∉ t) ∧
    (∀ m, Event.cursorOpen m ∉ t) ∧ (∀ m, Event.cursorClose m ∉ t) ∧
    (∀ m, Event.drain m ∉ t) ∧ (∀ m, Event.body m ∉ t) ∧
    (∀ co, Event.ret co ∉ t) := by
  refine ⟨fun m hm => ?_, fun m hm => ?_, fun m hm => ?_, fun m hm => ?_,
    fun m hm => ?_, fun m hm => ?_, fun co hm => ?_⟩
  · exact (poolEv_ne _ (h _ hm)).1 m rfl
  · exact (poolEv_ne _ (h _ hm)).2.1 m rfl
  · exact (poolEv_ne _ (h _ hm)).2.2.1 m rfl
  · exact (poolEv_ne _ (h _ hm)).2.2.2.1 m rfl
  · exact (poolEv_ne _ (h _ hm)).2.2.2.2.1 m rfl
  · exact (poolEv_ne _ (h _ hm)).2.2.2.2.2.1 m rfl
  · exact (poolEv_ne _ (h _ hm)).2.2.2.2.2.2 co rfl

/-- Every trace of `_return_connection` starts with its `ret` marker and
continues with pool-management events only. -/
lemma ret_trace_shape (b : Behavior) (s : PoolState) (conn : Option Nat) :
    ∃ rest, (_return_connection b s conn).2.2 = Event.ret conn :: rest ∧
      ∀ e ∈ rest, poolEv e := by
  cases conn with
  | none => exact ⟨[], by simp [_return_connection], by simp⟩
  | some c =>
    by_cases hx : b.execOk c
    · rcases hp : put_nowait s c with err | s₁
      · by_cases hcl : b.closeOk c
        · refine ⟨[.exec c, .close c], ?_, ?_⟩
          · simp [_return_connection, hx, hp, close_conn, hcl]
          · intro e he
            fin_cases he <;> simp [poolEv]
        · refine ⟨[.exec c, .close c, .close c], ?_, ?_⟩
          · simp [_return_connection, hx, hp, close_conn, hcl]
          · intro e he
            fin_cases he <;> simp [poolEv]
      · refine ⟨[.exec c, .put c], ?_, ?_⟩
        · simp [_return_connection, hx, hp]
        · intro e he
          fin_cases he <;> simp [poolEv]
    · refine ⟨[.exec c, .close c], ?_, ?_⟩
      · by_cases hcl : b.closeOk c <;>
          simp [_return_connection, hx, close_conn, hcl]
      · intro e he
        fin_cases he <;> simp [poolEv]

/-- `_return_connection` never raises: every raising path of the Python body
is caught by one of its handlers. -/
lemma ret_result_ok (b : Behavior) (s : PoolState) (conn : Option Nat) :
    (_return_connection b s conn).1 = .ok () := by
  cases conn with
  | none => simp [_return_connection]
  | some c =>
    by_cases hx : b.execOk c
    · rcases hp : put_nowait s c with err | s₁
      · rcases hcc : close_conn b c with ⟨rc, evc⟩
        cases rc <;> simp [_return_connection, hx, hp, hcc]
      · simp [_return_connection, hx, hp]
    · simp [_return_connection, hx]

/-- Effect of `_return_connection` on the state: either the connection was
alive and the queue below capacity, in which case it is appended to the idle
set, or the state is unchanged and a close of the connection was invoked. -/
lemma ret_some_cases (b : Behavior) (s : PoolState) (c : Nat) :
    (∃ q, s.pool = some q ∧ q.length < POOL_SIZE ∧ b.execOk c = true ∧
      (_return_connection b s (some c)).2.1 = { s with pool := some (q ++ [c]) } ∧
      (_return_connection b s (some c)).2.2 =
        [.ret (some c), .exec c, .put c]) ∨
    ((_return_connection b s (some c)).2.1 = s ∧
      Event.close c ∈ (_return_connection b s (some c)).2.2) := by
  by_cases hx : b.execOk c
  · rcases hp : put_nowait s c with err | s₁
    · right
      rcases hcc : close_conn b c with ⟨rc, evc⟩
      have hevc : evc = [Event.close c] := by
        by_cases hcl : b.closeOk c <;> simp [close_conn, hcl] at hcc <;>
          exact hcc.2.symm
      cases rc <;> simp [_return_connection, hx, hp, hcc, hevc]
    · left
      cases hq : s.pool with
      | none => simp [put_nowait, hq] at hp
      | some q =>
        by_cases hlen : q.length < POOL_SIZE
        · simp [put_nowait, hq, hlen] at hp
          exact ⟨q, rfl, hlen, hx, by simp [_return_connection, hx, put_nowait,
            hq, hlen, ← hp], by simp [_return_connection, hx, put_nowait, hq, hlen]⟩
        · simp [put_nowait, hq, hlen] at hp
  · right
    by_cases hcl : b.closeOk c <;>
      simp [_return_connection, hx, close_conn, hcl]

/-- `_return_connection` never changes the serial counter. -/
lemma ret_nextId (b : Behavior) (s : PoolState) (conn : Option Nat) :
    ((_return_connection b s conn).2.1).nextId = s.nextId := by
  cases conn with
  | none => simp [_return_connection]
  | some c =>
    rcases ret_some_cases b s c with ⟨q, _, _, _, h, _⟩ | ⟨h, _⟩ <;> simp [h]

/-- Count facts for a `_return_connection` trace: exactly one `ret` marker,
no transaction events. -/
lemma ret_counts (b : Behavior) (s : PoolState) (conn : Option Nat) :
    ((_return_connection b s conn).2.2).count (Event.ret conn) = 1 ∧
    (∀ m, ((_return_connection b s conn).2.2).count (Event.commit m) = 0) ∧
    (∀ m, ((_return_connection b s conn).2.2).count (Event.rollback m) = 0) ∧
    (∀ m, Event.cursorClose m ∉ (_return_connection b s conn).2.2) := by
  obtain ⟨rest, hsh, hrest⟩ := ret_trace_shape b s conn
  have hmem := not_mem_of_poolEv hrest
  refine ⟨?_, fun m => ?_, fun m => ?_, fun m hm => ?_⟩
  · rw [hsh, List.count_cons_self,
      List.count_eq_zero.mpr (hmem.2.2.2.2.2.2 conn)]
  · rw [hsh, List.count_cons_of_ne (by simp), List.count_eq_zero.mpr (hmem.1 m)]
  · rw [hsh, List.count_cons_of_ne (by simp),
      List.count_eq_zero.mpr (hmem.2.1 m)]
  · rw [hsh] at hm
    rcases List.mem_cons.mp hm with hm | hm
    · exact absurd hm (by simp)
    · exact hmem.2.2.2.1 m hm

/-- Destructuring a successful acquisition. -/
lemma acquired_some {b : Behavior} {s : PoolState} {c : Nat}
    (h : acquiredConn b s = some c) :
    ∃ s₁ ev₁, _get_pooled_connection b s = (.ok c, s₁, ev₁) := by
  unfold acquiredConn at h
  rcases hg : _get_pooled_connection b s with ⟨r, s₁, ev₁⟩
  rw [hg] at h
  cases r with
  | error e => simp at h
  | ok c' =>
    simp at h
    subst h
    exact ⟨s₁, ev₁, rfl⟩

/-- Unfolding of `_get_pooled_connection` into its two stages. -/
lemma gpc_eq (b : Behavior) (s : PoolState) :
    _get_pooled_connection b s =
      ((getCore b (_init_pool b s).1).1, (getCore b (_init_pool b s).1).2.1,
        (_init_pool b s).2 ++ (getCore b (_init_pool b s).1).2.2) := rfl

/-- Specification of `getCore` on an initialized pool with fresh, distinct
idle connections: the idle set shrinks to its tail, the serial counter only
advances, and a successful result is either the validated head of the idle
set or a brand-new serial — and is never left in the idle set. -/
lemma getCore_spec (b : Behavior) (s : PoolState) (q : List Nat)
    (hq : s.pool = some q) (hb : ∀ x ∈ q, x < s.nextId) (hn : q.Nodup) :
    ((getCore b s).2.1).pool = some q.tail ∧
    s.nextId ≤ ((getCore b s).2.1).nextId ∧
    (∀ c, (getCore b s).1 = .ok c →
      (c ∈ q ∨ c = s.nextId) ∧ c < ((getCore b s).2.1).nextId ∧
        c ∉ q.tail) := by
  cases q with
  | nil =>
    by_cases hc : b.createOk s.nextId
    · refine ⟨by simp [getCore, hq, _create_connection, hc],
        by simp [getCore, hq, _create_connection, hc], ?_⟩
      intro c hc'
      have hc'' : c = s.nextId := by
        have := hc'
        simp [getCore, hq, _create_connection, hc] at this
        exact this.symm
      subst hc''
      refine ⟨Or.inr rfl, ?_, by simp⟩
      have h₁ : ((getCore b s).2.1).nextId = s.nextId + 1 := by
        simp [getCore, hq, _create_connection, hc]
      rw [h₁]
      exact Nat.lt_succ_self _
    · refine ⟨by simp [getCore, hq, _create_connection, hc],
        by simp [getCore, hq, _create_connection, hc], ?_⟩
      intro c hc'
      simp [getCore, hq, _create_connection, hc] at hc'
  | cons c₀ rest =>
    by_cases hx : b.execOk c₀
    · refine ⟨by simp [getCore, hq, hx], by simp [getCore, hq, hx], ?_⟩
      intro c hc'
      have hc'' : c₀ = c := by
        have := hc'
        simp [getCore, hq, hx] at this
        exact this
      subst hc''
      refine ⟨Or.inl (by simp), ?_, ?_⟩
      · have h₁ : ((getCore b s).2.1).nextId = s.nextId := by
          simp [getCore, hq, hx]
        rw [h₁]
        exact hb c₀ (by simp)
      · simpa using (List.nodup_cons.mp hn).1
    · by_cases hc : b.createOk s.nextId
      · refine ⟨by simp [getCore, hq, hx, _create_connection, hc],
          by simp [getCore, hq, hx, _create_connection, hc], ?_⟩
        intro c hc'
        have hc'' : c = s.nextId := by
          have := hc'
          simp [getCore, hq, hx, _create_connection, hc] at this
          exact this.symm
        subst hc''
        refine ⟨Or.inr rfl, ?_, ?_⟩
        · have h₁ : ((getCore b s).2.1).nextId = s.nextId + 1 := by
            simp [getCore, hq, hx, _create_connection, hc]
          rw [h₁]
          exact Nat.lt_succ_self _
        · intro hmem
          have := hb s.nextId (List.mem_cons_of_mem _ (by simpa using hmem))
          omega
      · refine ⟨by simp [getCore, hq, hx, _create_connection, hc],
          by simp [getCore, hq, hx, _create_connection, hc], ?_⟩
        intro c hc'
        simp [getCore, hq, hx, _create_connection, hc] at hc'

/-- Specification of `_get_pooled_connection` relative to a well-formed
pool: freshness of the counter, distinctness of the idle set, and exclusivity
of the returned connection are preserved. -/
lemma gpc_spec (b : Behavior) (s : PoolState)
    (hb : ∀ x ∈ poolL s, x < s.nextId) (hn : (poolL s).Nodup) :
    s.nextId ≤ ((_get_pooled_connection b s).2.1).nextId ∧
    (∀ x ∈ poolL (_get_pooled_connection b s).2.1,
      (x ∈ poolL s ∨ s.nextId ≤ x) ∧
        x < ((_get_pooled_connection b s).2.1).nextId) ∧
    (poolL (_get_pooled_connection b s).2.1).Nodup ∧
    (∀ c, (_get_pooled_connection b s).1 = .ok c →
      (c ∈ poolL s ∨ s.nextId ≤ c) ∧
      c < ((_get_pooled_connection b s).2.1).nextId ∧
      c ∉ poolL (_get_pooled_connection b s).2.1) := by
  cases hq : s.pool with
  | some q =>
    have hql : poolL s = q := by simp [poolL, hq]
    rw [hql] at hb hn
    have hinit := init_pool_noop b s q hq
    obtain ⟨h₁, h₂, h₃⟩ := getCore_spec b s q hq hb hn
    rw [gpc_eq, hinit]
    refine ⟨h₂, ?_, ?_, ?_⟩
    · intro x hx
      simp only [poolL, h₁, Option.getD_some] at hx
      have hxq : x ∈ q := List.mem_of_mem_tail hx
      exact ⟨Or.inl (by simp [hql, hxq]), (hb x hxq).trans_le h₂⟩
    · simp only [poolL, h₁, Option.getD_some]
      exact hn.tail
    · intro c hc
      obtain ⟨hc₁, hc₂, hc₃⟩ := h₃ c hc
      refine ⟨?_, hc₂, ?_⟩
      · rcases hc₁ with hc₁ | hc₁
        · exact Or.inl (by simp [hql, hc₁])
        · exact Or.inr (le_of_eq hc₁.symm)
      · simp only [poolL, h₁, Option.getD_some]
        exact hc₃
  | none =>
    obtain ⟨new, h₁, h₂, h₃, h₄, h₅⟩ := init_pool_spec b s hq
    obtain ⟨g₁, g₂, g₃⟩ :=
      getCore_spec b (_init_pool b s).1 new h₁ (fun x hx => (h₄ x hx).2) h₅
    rw [gpc_eq]
    refine ⟨h₂.trans g₂, ?_, ?_, ?_⟩
    · intro x hx
      simp only [poolL, g₁, Option.getD_some] at hx
      have hxq : x ∈ new := List.mem_of_mem_tail hx
      exact ⟨Or.inr (h₄ x hxq).1, ((h₄ x hxq).2).trans_le g₂⟩
    · simp only [poolL, g₁, Option.getD_some]
      exact h₅.tail
    · intro c hc
      obtain ⟨hc₁, hc₂, hc₃⟩ := g₃ c hc
      refine ⟨?_, hc₂, ?_⟩
      · rcases hc₁ with hc₁ | hc₁
        · exact Or.inr (h₄ c hc₁).1
        · exact Or.inr (hc₁ ▸ h₂)
      · simp only [poolL, g₁, Option.getD_some]
        exact hc₃


/-- An acquisition step preserves the ownership invariant. -/
lemma sysInv_stepAcquire (b : Behavior) (σ : SysState) (h : sysInv σ) :
    sysInv (stepAcquire b σ) := by
  obtain ⟨hlt, hnd⟩ := h
  have hbp : ∀ x ∈ poolL σ.ps, x < σ.ps.nextId :=
    fun x hx => hlt x (List.mem_append_left _ hx)
  have hbh : ∀ x ∈ σ.held, x < σ.ps.nextId :=
    fun x hx => hlt x (List.mem_append_right _ hx)
  obtain ⟨hnp, hnh, hdisj⟩ := List.nodup_append.mp hnd
  obtain ⟨g₁, g₂, g₃, g₄⟩ := gpc_spec b σ.ps hbp hnp
  rcases hg : _get_pooled_connection b σ.ps with ⟨r, ps₁, ev⟩
  rw [hg] at g₁ g₂ g₃ g₄
  cases r with
  | error e =>
    constructor
    · intro x hx
      simp only [stepAcquire, hg]
      rcases List.mem_append.mp (by simpa [stepAcquire, hg] using hx) with
        hx | hx
      · exact (g₂ x hx).2
      · exact (hbh x hx).trans_le g₁
    · simp only [stepAcquire, hg]
      refine List.nodup_append.mpr ⟨g₃, hnh, ?_⟩
      intro x hx hx'
      rcases (g₂ x hx).1 with hx₂ | hx₂
      · exact hdisj hx₂ hx'
      · exact absurd (hbh x hx') (by omega)
  | ok c =>
    obtain ⟨hc₁, hc₂, hc₃⟩ := g₄ c rfl
    constructor
    · intro x hx
      simp only [stepAcquire, hg] at hx ⊢
      simp only [List.mem_append, List.mem_cons] at hx
      rcases hx with hx | hx | hx
      · exact (g₂ x hx).2
      · exact hx ▸ hc₂
      · exact (hbh x hx).trans_le g₁
    · simp only [stepAcquire, hg]
      refine List.nodup_append.mpr ⟨g₃, ?_, ?_⟩
      · refine List.nodup_cons.mpr ⟨?_, hnh⟩
        intro hch
        rcases hc₁ with hc₁ | hc₁
        · exact hdisj hc₁ hch
        · exact absurd (hbh c hch) (by omega)
      · intro x hx hx'
        rcases List.mem_cons.mp hx' with hx' | hx'
        · exact hc₃ (hx' ▸ hx)
        · rcases (g₂ x hx).1 with hx₂ | hx₂
          · exact hdisj hx₂ hx'
          · exact absurd (hbh x hx') (by omega)

/-- A release step preserves the ownership invariant. -/
lemma sysInv_stepRelease (b : Behavior) (c : Nat) (σ : SysState)
    (h : sysInv σ) : sysInv (stepRelease b c σ) := by
  obtain ⟨hlt, hnd⟩ := h
  by_cases hc : c ∈ σ.held
  · have hbp : ∀ x ∈ poolL σ.ps, x < σ.ps.nextId :=
      fun x hx => hlt x (List.mem_append_left _ hx)
    have hbh : ∀ x ∈ σ.held, x < σ.ps.nextId :=
      fun x hx => hlt x (List.mem_append_right _ hx)
    obtain ⟨hnp, hnh, hdisj⟩ := List.nodup_append.mp hnd
    have herased : ∀ x ∈ σ.held.erase c, x ∈ σ.held :=
      fun x hx => (List.erase_sublist c σ.held).mem hx
    have hnid := ret_nextId b σ.ps (some c)
    rcases ret_some_cases b σ.ps c with
      ⟨q, hq, hqlen, hex, hst, htr⟩ | ⟨hst, hcl⟩
    · have hpq : poolL σ.ps = q := by simp [poolL, hq]
      constructor
      · intro x hx
        simp only [stepRelease, hc, if_pos, hst] at hx ⊢
        have hx' : x ∈ (q ++ [c]) ++ σ.held.erase c := by
          simpa [poolL] using hx
        rcases List.mem_append.mp hx' with hx' | hx'
        · rcases List.mem_append.mp hx' with hx' | hx'
          · exact hbp x (hpq ▸ hx')
          · simp at hx'
            exact hx' ▸ hbh c hc
        · exact hbh x (herased x hx')
      · simp only [stepRelease, hc, if_pos, hst]
        have hgoal : ((q ++ [c]) ++ σ.held.erase c).Nodup := by
          refine List.nodup_append.mpr ⟨?_, hnh.erase c, ?_⟩
          · refine List.nodup_append.mpr ⟨hpq ▸ hnp, List.nodup_singleton c, ?_⟩
            intro x hx hx'
            simp at hx'
            exact hdisj (hpq ▸ hx : x ∈ poolL σ.ps) (hx' ▸ hc)
          · intro x hx hx'
            rcases List.mem_append.mp hx with hx | hx
            · exact hdisj (hpq ▸ hx : x ∈ poolL σ.ps) (herased x hx')
            · simp at hx
              subst hx
              exact absurd (hnh.mem_erase_iff.mp hx').1 (by simp)
        simpa [poolL] using hgoal
    · constructor
      · intro x hx
        simp only [stepRelease, hc, if_pos, hst] at hx ⊢
        rcases List.mem_append.mp hx with hx | hx
        · exact hbp x hx
        · exact hbh x (herased x hx)
      · simp only [stepRelease, hc, if_pos, hst]
        refine List.nodup_append.mpr ⟨hnp, hnh.erase c, ?_⟩
        intro x hx hx'
        exact hdisj hx (herased x hx')
  · simpa [stepRelease, hc] using ⟨hlt, hnd⟩


lemma commit_trace (b : Behavior) (c : Nat) :
    (commit_conn b c).2 = [Event.commit c] := by
  by_cases h : b.commitOk c <;> simp [commit_conn, h]

lemma rollback_trace (b : Behavior) (c : Nat) :
    (rollback_conn b c).2 = [Event.rollback c] := by
  by_cases h : b.rollbackOk c <;> simp [rollback_conn, h]

lemma cleanup_counts (b : Behavior) (c m : Nat) :
    (cursorCleanup b c).count (Event.commit m) = 0 ∧
    (cursorCleanup b c).count (Event.rollback m) = 0 ∧
    Event.commit m ∉ cursorCleanup b c ∧
    Event.rollback m ∉ cursorCleanup b c ∧
    (∀ co, Event.ret co ∉ cursorCleanup b c) := by
  by_cases h : b.drainOk c <;> simp [cursorCleanup, h]

/-- Exhaustive case analysis of a `get_db_cursor` execution that acquired
connection `c`: the four possible continuations (cursor creation fails, body
raises, body returns and commit succeeds, body returns and commit fails),
each with its result and full trace. -/
lemma uow_cases (b : Behavior) (s : PoolState) (c : Nat)
    (h : acquiredConn b s = some c) :
    ∃ s₁ ev₁, _get_pooled_connection b s = (.ok c, s₁, ev₁) ∧
      (∀ e ∈ ev₁, poolEv e) ∧
      ((b.cursorOk c = false ∧
        get_db_cursor b s = (.error (.cursorFail c),
          (_return_connection b s₁ (some c)).2.1,
          ev₁ ++ Event.rollback c :: (_return_connection b s₁ (some c)).2.2)) ∨
      (∃ k, b.cursorOk c = true ∧ b.bodyResult c = some k ∧
        get_db_cursor b s = (.error (.bodyErr k),
          (_return_connection b s₁ (some c)).2.1,
          ev₁ ++ Event.cursorOpen c :: Event.body c :: Event.rollback c ::
            (cursorCleanup b c ++ (_return_connection b s₁ (some c)).2.2))) ∨
      (b.cursorOk c = true ∧ b.bodyResult c = none ∧ b.commitOk c = true ∧
        get_db_cursor b s = (.ok (),
          (_return_connection b s₁ (some c)).2.1,
          ev₁ ++ Event.cursorOpen c :: Event.body c :: Event.commit c ::
            (cursorCleanup b c ++ (_return_connection b s₁ (some c)).2.2))) ∨
      (b.cursorOk c = true ∧ b.bodyResult c = none ∧ b.commitOk c = false ∧
        get_db_cursor b s = (.error (.commitFail c),
          (_return_connection b s₁ (some c)).2.1,
          ev₁ ++ Event.cursorOpen c :: Event.body c :: Event.commit c ::
            Event.rollback c ::
            (cursorCleanup b c ++ (_return_connection b s₁ (some c)).2.2)))) := by
  obtain ⟨s₁, ev₁, hg⟩ := acquired_some h
  have hev : ∀ e ∈ ev₁, poolEv e := by
    have hge := gpc_events b s
    rw [hg] at hge
    exact hge
  refine ⟨s₁, ev₁, hg, hev, ?_⟩
  rcases hr : _return_connection b s₁ (some c) with ⟨r₂, s₂, ev₂⟩
  by_cases hcur : b.cursorOk c
  · cases hb : b.bodyResult c with
    | some k =>
      refine Or.inr (Or.inl ⟨k, hcur, rfl, ?_⟩)
      by_cases hrb : b.rollbackOk c <;>
        simp [get_db_cursor, hg, hcur, hb, rollback_conn, hrb, hr]
    | none =>
      by_cases hcm : b.commitOk c
      · refine Or.inr (Or.inr (Or.inl ⟨hcur, rfl, hcm, ?_⟩))
        simp [get_db_cursor, hg, hcur, hb, commit_conn, hcm, hr]
      · refine Or.inr (Or.inr (Or.inr ⟨hcur, rfl, by simpa using hcm, ?_⟩))
        by_cases hrb : b.rollbackOk c <;>
          simp [get_db_cursor, hg, hcur, hb, commit_conn, hcm, rollback_conn,
            hrb, hr]
  · refine Or.inl ⟨by simpa using hcur, ?_⟩
    by_cases hrb : b.rollbackOk c <;>
      simp [get_db_cursor, hg, hcur, rollback_conn, hrb, hr]


lemma getCore_pool (b : Behavior) (s : PoolState) (q : List Nat)
    (hq : s.pool = some q) : ((getCore b s).2.1).pool = some q.tail := by
  cases q with
  | nil =>
    by_cases hc : b.createOk s.nextId <;>
      simp [getCore, hq, _create_connection, hc]
  | cons c₀ rest =>
    by_cases hx : b.execOk c₀
    · simp [getCore, hq, hx]
    · by_cases hc : b.createOk s.nextId <;>
        simp [getCore, hq, hx, _create_connection, hc]

lemma gpc_bounded (b : Behavior) (s : PoolState) (h : poolBounded s) :
    poolBounded (_get_pooled_connection b s).2.1 := by
  cases hq : s.pool with
  | some q =>
    have hlen : q.length ≤ POOL_SIZE := by simpa [poolBounded, poolL, hq] using h
    rw [gpc_eq, init_pool_noop b s q hq]
    simp only [poolBounded, poolL, getCore_pool b s q hq, Option.getD_some]
    exact le_trans (by simp [List.length_tail]) hlen
  | none =>
    obtain ⟨new, h₁, _, h₃, _, _⟩ := init_pool_spec b s hq
    rw [gpc_eq]
    simp only [poolBounded, poolL, getCore_pool b _ new h₁, Option.getD_some]
    exact le_trans (by simp [List.length_tail]) h₃

lemma ret_bounded (b : Behavior) (s : PoolState) (conn : Option Nat)
    (h : poolBounded s) : poolBounded (_return_connection b s conn).2.1 := by
  cases conn with
  | none => simpa [_return_connection] using h
  | some c =>
    rcases ret_some_cases b s c with ⟨q, hq, hqlen, _, hst, _⟩ | ⟨hst, _⟩
    · rw [hst]
      simp only [poolBounded, poolL, Option.getD_some]
      simp only [List.length_append, List.length_singleton]
      omega
    · rw [hst]; exact h

lemma uow_bounded (b : Behavior) (s : PoolState) (h : poolBounded s) :
    poolBounded (get_db_cursor b s).2.1 := by
  cases hacq : acquiredConn b s with
  | none =>
    unfold acquiredConn at hacq
    rcases hg : _get_pooled_connection b s with ⟨r, s₁, ev₁⟩
    rw [hg] at hacq
    cases r with
    | ok c => simp at hacq
    | error e =>
      have h₁ : poolBounded s₁ := by
        have hb₁ := gpc_bounded b s h
        rw [hg] at hb₁
        exact hb₁
      rcases hr : _return_connection b s₁ none with ⟨r₂, s₂, ev₂⟩
      have h₂ := ret_bounded b s₁ none h₁
      rw [hr] at h₂
      simpa [get_db_cursor, hg, hr] using h₂
  | some c =>
    obtain ⟨s₁, ev₁, hg, _, hbr⟩ := uow_cases b s c hacq
    have h₁ : poolBounded s₁ := by
      have hb₁ := gpc_bounded b s h
      rw [hg] at hb₁
      exact hb₁
    have h₂ := ret_bounded b s₁ (some c) h₁
    rcases hbr with ⟨_, he⟩ | ⟨k, _, _, he⟩ | ⟨_, _, _, he⟩ | ⟨_, _, _, he⟩ <;>
      rw [he] <;> exact h₂

/-- C5: `_return_connection` never raises, for every argument and behavior:
`release(None)` leaves the state unchanged; a dead connection is closed; an
alive connection is closed when the pool was never initialized, and closed
(without growing the idle set) when the queue is at capacity; validation and
close errors are swallowed. -/
theorem return_connection_never_raises (b : Behavior) (s : PoolState)
    (conn : Option Nat) :
    (_return_connection b s conn).1 = .ok () ∧
    (conn = none → (_return_connection b s conn).2.1 = s ∧
      (_return_connection b s conn).2.2 = [Event.ret none]) ∧
    (∀ c, conn = some c → b.execOk c = false →
      Event.close c ∈ (_return_connection b s conn).2.2) ∧
    (∀ c, conn = some c → b.execOk c = true → s.pool = none →
      Event.close c ∈ (_return_connection b s conn).2.2) ∧
    (∀ c q, conn = some c → b.execOk c = true → s.pool = some q →
      POOL_SIZE ≤ q.length →
      Event.close c ∈ (_return_connection b s conn).2.2 ∧
      (_return_connection b s conn).2.1 = s) := by
  refine ⟨ret_result_ok b s conn, ?_, ?_, ?_, ?_⟩
  · rintro rfl
    simp [_return_connection]
  · rintro c rfl hdead
    rcases ret_some_cases b s c with ⟨q, _, _, hex, _, _⟩ | ⟨_, hcl⟩
    · rw [hex] at hdead
      exact absurd hdead (by simp)
    · exact hcl
  · rintro c rfl _ hnone
    rcases ret_some_cases b s c with ⟨q, hq, _, _, _, _⟩ | ⟨_, hcl⟩
    · rw [hnone] at hq
      exact absurd hq (by simp)
    · exact hcl
  · rintro c q rfl _ hq hcap
    rcases ret_some_cases b s c with ⟨q', hq', hlen, _, _, _⟩ | ⟨hst, hcl⟩
    · rw [hq] at hq'
      have hqq : q = q' := by simpa using hq'
      subst hqq
      omega
    · exact ⟨hcl, hst⟩

/-- C5 witness: releasing a dead connection on an uninitialized pool returns
without raising and closes it. -/
theorem return_connection_never_raises_witness :
    (_return_connection bDead ⟨none, 0⟩ (some 0)).1 = .ok () ∧
    Event.close 0 ∈ (_return_connection bDead ⟨none, 0⟩ (some 0)).2.2 := by
  have h := return_connection_never_raises bDead ⟨none, 0⟩ (some 0)
  exact ⟨h.1, h.2.2.1 0 rfl (by decide)⟩

/-- C6: the idle set never exceeds the configured capacity `POOL_SIZE = 5`:
initialization installs at most `POOL_SIZE` connections, acquisition,
release and the whole Unit of Work preserve the bound, and a release that
finds the queue at capacity closes the connection instead of growing the
idle set. -/
theorem pool_capacity_bounded (b : Behavior) (s : PoolState)
    (conn : Option Nat) (h : poolBounded s) :
    POOL_SIZE = 5 ∧
    poolBounded (_init_pool b s).1 ∧
    poolBounded (_get_pooled_connection b s).2.1 ∧
    poolBounded (_return_connection b s conn).2.1 ∧
    poolBounded (get_db_cursor b s).2.1 ∧
    (∀ c q, conn = some c → b.execOk c = true → s.pool = some q →
      q.length = POOL_SIZE →
      (_return_connection b s conn).2.1 = s ∧
      Event.close c ∈ (_return_connection b s conn).2.2) := by
  refine ⟨rfl, ?_, gpc_bounded b s h, ret_bounded b s conn h,
    uow_bounded b s h, ?_⟩
  · cases hq : s.pool with
    | some q => rw [init_pool_noop b s q hq]; exact h
    | none =>
      obtain ⟨new, h₁, _, h₃, _, _⟩ := init_pool_spec b s hq
      simpa [poolBounded, poolL, h₁] using h₃
  · rintro c q rfl hex hq hcap
    rcases ret_some_cases b s c with ⟨q', hq', hlen, _, _, _⟩ | ⟨hst, hcl⟩
    · rw [hq] at hq'
      have hqq : q = q' := by simpa using hq'
      subst hqq
      omega
    · exact ⟨hst, hcl⟩

/-- C6 witness: a full Unit of Work execution from a fresh state keeps the
idle set within capacity, and a release onto a full queue closes instead of
growing. -/
theorem pool_capacity_bounded_witness :
    poolBounded (get_db_cursor bAllOk ⟨none, 0⟩).2.1 ∧
    (_return_connection bAllOk ⟨some [1, 2, 3, 4, 5], 9⟩ (some 0)).2.1 =
      ⟨some [1, 2, 3, 4, 5], 9⟩ := by
  have h₁ := pool_capacity_bounded bAllOk ⟨none, 0⟩ none (by decide)
  have h₂ := pool_capacity_bounded bAllOk ⟨some [1, 2, 3, 4, 5], 9⟩ (some 0)
    (by decide)
  exact ⟨h₁.2.2.2.2.1, (h₂.2.2.2.2.2 0 [1, 2, 3, 4, 5] rfl (by decide) rfl
    (by decide)).1⟩

/-- C7: an acquire that pops a stale connection (failed `SELECT 1`) closes
it (close errors swallowed — the conclusion holds for every `closeOk`),
does not retry the pool (the idle set shrinks by exactly that one pop), and
hands the caller a freshly created connection, failing only if the factory
itself fails. -/
theorem stale_checkout_recovery (b : Behavior) (s : PoolState) (c : Nat)
    (rest : List Nat) (hq : s.pool = some (c :: rest))
    (hdead : b.execOk c = false) :
    Event.close c ∈ (_get_pooled_connection b s).2.2 ∧
    ((_get_pooled_connection b s).2.1).pool = some rest ∧
    (b.createOk s.nextId = true →
      (_get_pooled_connection b s).1 = .ok s.nextId) ∧
    (b.createOk s.nextId = false →
      (_get_pooled_connection b s).1 = .error (.connectFail s.nextId)) := by
  have hx : ¬b.execOk c = true := by simp [hdead]
  rw [gpc_eq, init_pool_noop b s (c :: rest) hq]
  refine ⟨?_, ?_, ?_, ?_⟩
  · by_cases hc : b.createOk s.nextId <;>
      simp [getCore, hq, hx, _create_connection, hc, init_pool_noop b s _ hq]
  · by_cases hc : b.createOk s.nextId <;>
      simp [getCore, hq, hx, _create_connection, hc]
  · intro hc
    simp [getCore, hq, hx, _create_connection, hc]
  · intro hc
    simp [getCore, hq, hx, _create_connection, hc, Bool.not_eq_true]

/-- C7 witness: a concrete stale pooled connection is closed and replaced by
a fresh one. -/
theorem stale_checkout_recovery_witness :
    Event.close 0 ∈ (_get_pooled_connection bDead ⟨some [0], 1⟩).2.2 ∧
    (_get_pooled_connection bDead ⟨some [0], 1⟩).1 = .ok 1 := by
  have h := stale_checkout_recovery bDead ⟨some [0], 1⟩ 0 [] rfl (by decide)
  exact ⟨h.1, h.2.2.1 (by decide)⟩

/-- C8: on an exhausted pool (initialized, idle set empty) the checkout wait
budget is the configured `POOL_TIMEOUT = 30` seconds, after which a fresh
connection is created outside the pool's capacity accounting (the idle set
is left empty, the new connection untracked); acquisition fails only if the
factory itself fails. -/
theorem exhausted_pool_fallback (b : Behavior) (s : PoolState)
    (hq : s.pool = some []) :
    POOL_TIMEOUT = 30 ∧
    ((_get_pooled_connection b s).2.1).pool = some [] ∧
    (b.createOk s.nextId = true →
      (_get_pooled_connection b s).1 = .ok s.nextId) ∧
    (b.createOk s.nextId = false →
      (_get_pooled_connection b s).1 = .error (.connectFail s.nextId)) := by
  rw [gpc_eq, init_pool_noop b s [] hq]
  refine ⟨rfl, ?_, ?_, ?_⟩
  · by_cases hc : b.createOk s.nextId <;>
      simp [getCore, hq, _create_connection, hc]
  · intro hc
    simp [getCore, hq, _create_connection, hc]
  · intro hc
    simp [getCore, hq, _create_connection, hc, Bool.not_eq_true]

/-- C8 witness: a concrete exhausted pool yields a freshly created
connection and the idle set stays empty. -/
theorem exhausted_pool_fallback_witness :
    (_get_pooled_connection bAllOk ⟨some [], 7⟩).1 = .ok 7 ∧
    ((_get_pooled_connection bAllOk ⟨some [], 7⟩).2.1).pool = some [] := by
  have h := exhausted_pool_fallback bAllOk ⟨some [], 7⟩ rfl
  exact ⟨h.2.2.1 (by decide), h.2.1⟩


/-- C9: mutual exclusion of physical connections.  The system, viewed as any
interleaving of atomic acquire and release steps (the shared-state mutations
are the thread-safe `Queue` operations, and each `pyodbc.connect` yields a
distinct fresh connection), preserves the ownership invariant: every
connection is owned either by the pool (while idle) or by exactly one Unit
of Work — the held multiset has no duplicates and is disjoint from the idle
set. -/
theorem connection_mutual_exclusion (b : Behavior) (c : Nat) (σ : SysState)
    (h : sysInv σ) :
    sysInv (stepAcquire b σ) ∧ sysInv (stepRelease b c σ) ∧
    σ.held.Nodup ∧ (∀ x ∈ σ.held, x ∉ poolL σ.ps) := by
  refine ⟨sysInv_stepAcquire b σ h, sysInv_stepRelease b c σ h, ?_, ?_⟩
  · exact h.2.of_append_right
  · intro x hx hx'
    exact (List.nodup_append.mp h.2).2.2 hx' hx

/-- C9 witness: a concrete well-formed system state with one held connection
stays well-formed under an acquire and a release. -/
theorem connection_mutual_exclusion_witness :
    sysInv (stepAcquire bAllOk ⟨⟨some [1, 2], 3⟩, [0]⟩) ∧
    sysInv (stepRelease bAllOk 0 ⟨⟨some [1, 2], 3⟩, [0]⟩) := by
  have h := connection_mutual_exclusion bAllOk 0 ⟨⟨some [1, 2], 3⟩, [0]⟩
    (by decide)
  exact ⟨h.1, h.2.1⟩

/-- C10 counterexample: with only the first of the five creations failing,
lazy initialization installs the under-populated queue `[1, 2, 3, 4]`
(four connections, below `POOL_SIZE`), and the next acquire is served
immediately from the idle set — its trace is exactly one validation probe,
with no 30-second `Empty` timeout and no ad-hoc creation — contradicting
the claim that subsequent acquires on the under-populated pool wait the
full timeout before falling back to ad-hoc connection creation. -/
theorem init_failure_wait_cex :
    (_init_pool bFirstCreateFails ⟨none, 0⟩).1 = ⟨some [1, 2, 3, 4], 5⟩ ∧
    (poolL (_init_pool bFirstCreateFails ⟨none, 0⟩).1).length < POOL_SIZE ∧
    (_get_pooled_connection bFirstCreateFails
      (_init_pool bFirstCreateFails ⟨none, 0⟩).1).1 = .ok 1 ∧
    (_get_pooled_connection bFirstCreateFails
      (_init_pool bFirstCreateFails ⟨none, 0⟩).1).2.2 = [Event.exec 1] :=
  ⟨rfl, by decide, rfl, rfl⟩

/-- C10 (amended): if creations fail during lazy initialization, `_init_pool`
swallows the errors and still installs the queue (with at most `POOL_SIZE`
connections); population is never re-attempted — every later `_init_pool`
call on an installed pool is a no-op — and an acquire that finds the idle
set empty waits the full `POOL_TIMEOUT = 30` seconds and then falls back to
ad-hoc connection creation, failing only if the factory fails. -/
theorem init_failure_underpopulation (b : Behavior) (s : PoolState)
    (q : List Nat) :
    (s.pool = none → ∃ new, (_init_pool b s).1.pool = some new ∧
      new.length ≤ POOL_SIZE) ∧
    (s.pool = some q → _init_pool b s = (s, [])) ∧
    (s.pool = some [] → POOL_TIMEOUT = 30 ∧
      (b.createOk s.nextId = true →
        (_get_pooled_connection b s).1 = .ok s.nextId) ∧
      (b.createOk s.nextId = false →
        (_get_pooled_connection b s).1 = .error (.connectFail s.nextId))) := by
  refine ⟨?_, ?_, ?_⟩
  · intro hq
    obtain ⟨new, h₁, _, h₃, _, _⟩ := init_pool_spec b s hq
    exact ⟨new, h₁, h₃⟩
  · intro hq
    exact init_pool_noop b s q hq
  · intro hq
    have h := exhausted_pool_fallback b s hq
    exact ⟨h.1, h.2.2.1, h.2.2.2⟩

/-- C10 witness: with the first creation failing, the queue is still
installed, later initialization is a no-op, and an acquire on an empty
installed pool falls back to ad-hoc creation. -/
theorem init_failure_underpopulation_witness :
    (∃ new, (_init_pool bFirstCreateFails ⟨none, 0⟩).1.pool = some new ∧
      new.length ≤ POOL_SIZE) ∧
    _init_pool bFirstCreateFails ⟨some [], 9⟩ = (⟨some [], 9⟩, []) ∧
    (_get_pooled_connection bFirstCreateFails ⟨some [], 9⟩).1 = .ok 9 := by
  have h₁ := init_failure_underpopulation bFirstCreateFails ⟨none, 0⟩ []
  have h₂ := init_failure_underpopulation bFirstCreateFails ⟨some [], 9⟩ []
  exact ⟨h₁.1 rfl, h₂.2.1 rfl, (h₂.2.2 rfl).2.1 (by decide)⟩


/-- C1 (amended): for every execution of `get_db_cursor` that acquires a
connection, at least one of commit and rollback is invoked on it (never
neither), each is invoked at most once, and both are invoked only in the one
exceptional case where the body returned normally and the commit itself
raised (in which case rollback is additionally attempted on the failed
transaction). -/
theorem uow_commit_rollback_exclusive (b : Behavior) (s : PoolState)
    (c : Nat) (h : acquiredConn b s = some c) :
    (Event.commit c ∈ (get_db_cursor b s).2.2 ∨
      Event.rollback c ∈ (get_db_cursor b s).2.2) ∧
    (get_db_cursor b s).2.2.count (Event.commit c) ≤ 1 ∧
    (get_db_cursor b s).2.2.count (Event.rollback c) ≤ 1 ∧
    (Event.commit c ∈ (get_db_cursor b s).2.2 →
      Event.rollback c ∈ (get_db_cursor b s).2.2 →
      b.bodyResult c = none ∧ b.commitOk c = false) := by
  obtain ⟨s₁, ev₁, hg, hev, hbr⟩ := uow_cases b s c h
  have hcm₁ : Event.commit c ∉ ev₁ := (not_mem_of_poolEv hev).1 c
  have hrb₁ : Event.rollback c ∉ ev₁ := (not_mem_of_poolEv hev).2.1 c
  have hc₁ : ev₁.count (Event.commit c) = 0 := List.count_eq_zero.mpr hcm₁
  have hr₁ : ev₁.count (Event.rollback c) = 0 := List.count_eq_zero.mpr hrb₁
  obtain ⟨hret₁, hretc, hretr, _⟩ := ret_counts b s₁ (some c)
  have hcm₂ : Event.commit c ∉ (_return_connection b s₁ (some c)).2.2 :=
    List.count_eq_zero.mp (hretc c)
  have hrb₂ : Event.rollback c ∉ (_return_connection b s₁ (some c)).2.2 :=
    List.count_eq_zero.mp (hretr c)
  obtain ⟨hclc, hclr, hclm, hclm', _⟩ := cleanup_counts b c c
  rcases hbr with ⟨hcur, he⟩ | ⟨k, hcur, hb, he⟩ | ⟨hcur, hb, hcm, he⟩ |
    ⟨hcur, hb, hcm, he⟩ <;> rw [he]
  · refine ⟨Or.inr (by simp), ?_, ?_, ?_⟩
    · simp [List.count_append, List.count_cons, hc₁, hretc c]
    · simp [List.count_append, List.count_cons, hr₁, hretr c]
    · intro hcmem _
      exact absurd hcmem (by simp [List.mem_append, hcm₁, hcm₂])
  · refine ⟨Or.inr (by simp), ?_, ?_, ?_⟩
    · simp [List.count_append, List.count_cons, hc₁, hretc c, hclc]
    · simp [List.count_append, List.count_cons, hr₁, hretr c, hclr]
    · intro hcmem _
      exact absurd hcmem (by simp [List.mem_append, hcm₁, hcm₂, hclm])
  · refine ⟨Or.inl (by simp), ?_, ?_, ?_⟩
    · simp [List.count_append, List.count_cons, hc₁, hretc c, hclc]
    · simp [List.count_append, List.count_cons, hr₁, hretr c, hclr]
    · intro _ hrmem
      exact absurd hrmem (by simp [List.mem_append, hrb₁, hrb₂, hclm'])
  · refine ⟨Or.inl (by simp), ?_, ?_, fun _ _ => ⟨hb, hcm⟩⟩
    · simp [List.count_append, List.count_cons, hc₁, hretc c, hclc]
    · simp [List.count_append, List.count_cons, hr₁, hretr c, hclr]

/-- C1 counterexample: when the body returns normally but `conn.commit()`
raises, both commit and rollback are invoked on the same borrowed
connection in the same execution — refuting "never both". -/
theorem uow_commit_rollback_exclusive_cex :
    acquiredConn bBadCommit ⟨none, 0⟩ = some 0 ∧
    Event.commit 0 ∈ (get_db_cursor bBadCommit ⟨none, 0⟩).2.2 ∧
    Event.rollback 0 ∈ (get_db_cursor bBadCommit ⟨none, 0⟩).2.2 := by
  refine ⟨rfl, ?_, ?_⟩ <;> decide

/-- C1 witness: the amended exclusivity at a concrete all-success
execution. -/
theorem uow_commit_rollback_exclusive_witness :
    (Event.commit 0 ∈ (get_db_cursor bAllOk ⟨none, 0⟩).2.2 ∨
      Event.rollback 0 ∈ (get_db_cursor bAllOk ⟨none, 0⟩).2.2) ∧
    (get_db_cursor bAllOk ⟨none, 0⟩).2.2.count (Event.commit 0) ≤ 1 ∧
    (get_db_cursor bAllOk ⟨none, 0⟩).2.2.count (Event.rollback 0) ≤ 1 ∧
    (Event.commit 0 ∈ (get_db_cursor bAllOk ⟨none, 0⟩).2.2 →
      Event.rollback 0 ∈ (get_db_cursor bAllOk ⟨none, 0⟩).2.2 →
      bAllOk.bodyResult 0 = none ∧ bAllOk.commitOk 0 = false) :=
  uow_commit_rollback_exclusive bAllOk ⟨none, 0⟩ 0 (by decide)

/-- C2: every `get_db_cursor` execution that acquires a connection releases
it via `_return_connection` exactly once (in the `finally` block), after
which the connection is either back in the idle set or a close was invoked
on it — it is never leaked. -/
theorem uow_leak_free (b : Behavior) (s : PoolState) (c : Nat)
    (h : acquiredConn b s = some c) :
    (get_db_cursor b s).2.2.count (Event.ret (some c)) = 1 ∧
    (c ∈ poolL (get_db_cursor b s).2.1 ∨
      Event.close c ∈ (get_db_cursor b s).2.2) := by
  obtain ⟨s₁, ev₁, hg, hev, hbr⟩ := uow_cases b s c h
  have hrt₁ : (Event.ret (some c)) ∉ ev₁ :=
    (not_mem_of_poolEv hev).2.2.2.2.2.2 (some c)
  have hz₁ : ev₁.count (Event.ret (some c)) = 0 := List.count_eq_zero.mpr hrt₁
  obtain ⟨hret₁, _, _, _⟩ := ret_counts b s₁ (some c)
  have hclean : ∀ co, Event.ret co ∉ cursorCleanup b c :=
    (cleanup_counts b c c).2.2.2.2
  have hzc : (cursorCleanup b c).count (Event.ret (some c)) = 0 :=
    List.count_eq_zero.mpr (hclean (some c))
  have hmem : c ∈ poolL (_return_connection b s₁ (some c)).2.1 ∨
      Event.close c ∈ (_return_connection b s₁ (some c)).2.2 := by
    rcases ret_some_cases b s₁ c with ⟨q, hq, _, _, hst, _⟩ | ⟨_, hcl⟩
    · left
      rw [hst]
      simp [poolL]
    · exact Or.inr hcl
  rcases hbr with ⟨hcur, he⟩ | ⟨k, hcur, hb, he⟩ | ⟨hcur, hb, hcm, he⟩ |
    ⟨hcur, hb, hcm, he⟩ <;> rw [he] <;>
    refine ⟨by simp [List.count_append, List.count_cons, hz₁, hzc, hret₁], ?_⟩ <;>
    rcases hmem with hmem | hmem
  · exact Or.inl hmem
  · exact Or.inr (by simp [hmem])
  · exact Or.inl hmem
  · exact Or.inr (by simp [hmem])
  · exact Or.inl hmem
  · exact Or.inr (by simp [hmem])
  · exact Or.inl hmem
  · exact Or.inr (by simp [hmem])

/-- C2 witness: leak freedom at a concrete all-success execution. -/
theorem uow_leak_free_witness :
    (get_db_cursor bAllOk ⟨none, 0⟩).2.2.count (Event.ret (some 0)) = 1 ∧
    (0 ∈ poolL (get_db_cursor bAllOk ⟨none, 0⟩).2.1 ∨
      Event.close 0 ∈ (get_db_cursor bAllOk ⟨none, 0⟩).2.2) :=
  uow_leak_free bAllOk ⟨none, 0⟩ 0 (by decide)

/-- C3: for every exception raised by the body (which runs the caller's
statements) or by the commit inside `get_db_cursor`, a rollback is invoked
on the connection and the original exception is re-raised unchanged — the
conclusion holds for every outcome of the rollback and of the cleanup
(`rollbackOk`, `drainOk`, `closeOk` are universally quantified in `b`), so a
secondary cleanup failure never replaces the primary exception. -/
theorem uow_rollback_and_reraise (b : Behavior) (s : PoolState) (c : Nat)
    (h : acquiredConn b s = some c) (hcur : b.cursorOk c = true) :
    (∀ k, b.bodyResult c = some k →
      (get_db_cursor b s).1 = .error (.bodyErr k) ∧
      Event.rollback c ∈ (get_db_cursor b s).2.2) ∧
    (b.bodyResult c = none → b.commitOk c = false →
      (get_db_cursor b s).1 = .error (.commitFail c) ∧
      Event.rollback c ∈ (get_db_cursor b s).2.2) := by
  obtain ⟨s₁, ev₁, hg, hev, hbr⟩ := uow_cases b s c h
  rcases hbr with ⟨hcur', he⟩ | ⟨k', hcur', hb, he⟩ | ⟨hcur', hb, hcm, he⟩ |
    ⟨hcur', hb, hcm, he⟩
  · rw [hcur] at hcur'
    exact absurd hcur' (by simp)
  · constructor
    · intro k hk
      rw [hb] at hk
      have hkk : k' = k := by simpa using hk
      subst hkk
      rw [he]
      exact ⟨rfl, by simp⟩
    · intro hnone _
      rw [hb] at hnone
      exact absurd hnone (by simp)
  · constructor
    · intro k hk
      rw [hb] at hk
      exact absurd hk (by simp)
    · intro _ hcm'
      rw [hcm] at hcm'
      exact absurd hcm' (by simp)
  · constructor
    · intro k hk
      rw [hb] at hk
      exact absurd hk (by simp)
    · intro _ _
      rw [he]
      exact ⟨rfl, by simp⟩

/-- C3 witness: a body raising exception `42` rolls back and re-raises it
unchanged. -/
theorem uow_rollback_and_reraise_witness :
    (get_db_cursor bBodyRaises ⟨none, 0⟩).1 = .error (.bodyErr 42) ∧
    Event.rollback 0 ∈ (get_db_cursor bBodyRaises ⟨none, 0⟩).2.2 :=
  (uow_rollback_and_reraise bBodyRaises ⟨none, 0⟩ 0 (by decide)
    (by decide)).1 42 rfl

/-- C4: when the body returns normally, commit is invoked on the borrowed
connection strictly before the cursor cleanup and before the connection is
released; if the commit raises, the failure propagates to the caller, and
if it succeeds the execution succeeds. -/
theorem uow_commit_on_success (b : Behavior) (s : PoolState) (c : Nat)
    (h : acquiredConn b s = some c) (hcur : b.cursorOk c = true)
    (hbody : b.bodyResult c = none) :
    (∃ pre post, (get_db_cursor b s).2.2 = pre ++ Event.commit c :: post ∧
      (∀ m, Event.cursorClose m ∉ pre) ∧ (∀ m, Event.drain m ∉ pre) ∧
      (∀ co, Event.ret co ∉ pre) ∧
      Event.ret (some c) ∈ post) ∧
    (b.commitOk c = true → (get_db_cursor b s).1 = .ok ()) ∧
    (b.commitOk c = false → (get_db_cursor b s).1 = .error (.commitFail c)) := by
  obtain ⟨s₁, ev₁, hg, hev, hbr⟩ := uow_cases b s c h
  have hpool := not_mem_of_poolEv hev
  obtain ⟨rest, hsh, _⟩ := ret_trace_shape b s₁ (some c)
  have hrmem : Event.ret (some c) ∈ (_return_connection b s₁ (some c)).2.2 := by
    rw [hsh]
    exact List.mem_cons_self _ _
  rcases hbr with ⟨hcur', he⟩ | ⟨k', hcur', hb, he⟩ | ⟨hcur', hb, hcm, he⟩ |
    ⟨hcur', hb, hcm, he⟩
  · rw [hcur] at hcur'
    exact absurd hcur' (by simp)
  · rw [hbody] at hb
    exact absurd hb (by simp)
  · refine ⟨⟨ev₁ ++ [Event.cursorOpen c, Event.body c],
      cursorCleanup b c ++ (_return_connection b s₁ (some c)).2.2,
      ?_, ?_, ?_, ?_, ?_⟩, fun _ => by rw [he], fun hcm' => ?_⟩
    · rw [he]
      simp
    · intro m
      simp [List.mem_append, hpool.2.2.2.1 m]
    · intro m
      simp [List.mem_append, hpool.2.2.2.2.1 m]
    · intro co
      simp [List.mem_append, hpool.2.2.2.2.2.2 co]
    · exact List.mem_append_right _ hrmem
    · rw [hcm] at hcm'
      exact absurd hcm' (by simp)
  · refine ⟨⟨ev₁ ++ [Event.cursorOpen c, Event.body c],
      Event.rollback c :: (cursorCleanup b c ++
        (_return_connection b s₁ (some c)).2.2),
      ?_, ?_, ?_, ?_, ?_⟩, fun hcm' => ?_, fun _ => by rw [he]⟩
    · rw [he]
      simp
    · intro m
      simp [List.mem_append, hpool.2.2.2.1 m]
    · intro m
      simp [List.mem_append, hpool.2.2.2.2.1 m]
    · intro co
      simp [List.mem_append, hpool.2.2.2.2.2.2 co]
    · exact List.mem_cons_of_mem _ (List.mem_append_right _ hrmem)
    · rw [hcm] at hcm'
      exact absurd hcm' (by simp)

/-- C4 witness: the all-success execution commits before cleanup and
returns successfully. -/
theorem uow_commit_on_success_witness :
    (∃ pre post, (get_db_cursor bAllOk ⟨none, 0⟩).2.2 =
        pre ++ Event.commit 0 :: post ∧
      (∀ m, Event.cursorClose m ∉ pre) ∧ (∀ m, Event.drain m ∉ pre) ∧
      (∀ co, Event.ret co ∉ pre) ∧
      Event.ret (some 0) ∈ post) ∧
    (bAllOk.commitOk 0 = true → (get_db_cursor bAllOk ⟨none, 0⟩).1 = .ok ()) ∧
    (bAllOk.commitOk 0 = false →
      (get_db_cursor bAllOk ⟨none, 0⟩).1 = .error (.commitFail 0)) :=
  uow_commit_on_success bAllOk ⟨none, 0⟩ 0 (by decide) (by decide) (by decide)

end DBPool
